import Mathlib

/-!
Verification development for the `local_intersubject_pkg` intersubject
correlation (ISC) library.

The embedding models the numeric scalar as `Val := Option ℚ`, where `none`
plays the role of IEEE NaN (missing data) and `some q` a finite float.
A 3-D timeseries tensor of shape (n_TRs, n_regions, n_subjects) is a nested
list `data[t][v][s]`.  Fallible code returns `Except PyErr`.

The repository imports `array_correlation`, `_check_timeseries_input`,
`_threshold_nans` and `compute_summary_statistic` from
`local_intersubject_pkg.utils.bnk_funcs`, a module that is not part of the
sources at hand; the spec declares the column-wise Pearson primitive and the
Fisher-Z summary reducer to be externally consumed capabilities, so those two
numeric kernels are taken as parameters (structure `ExtCaps`) and the remaining
helpers are modelled from the spec.
-/

/-- Scalar value: `none` is NaN, `some q` a finite float. -/
abbrev Val := Option ℚ

/-- A 2-D array (rows of values). -/
abbrev Mat := List (List Val)

/-- A 3-D timeseries tensor, indexed `data[t][v][s]`
(time, region/voxel, subject). -/
abbrev Tensor := List (List (List Val))

/-- NaN-propagating subtraction (IEEE: anything minus NaN is NaN). -/
def vSub : Val → Val → Val
  | some a, some b => some (a - b)
  | _, _ => none

/-- Elementwise difference of two equal-shaped 2-D arrays. -/
def matSub (a b : Mat) : Mat :=
  List.zipWith (fun ra rb => List.zipWith vSub ra rb) a b

/-- `np.mean` along a list: NaN if any entry is NaN (or the list is empty). -/
def npMean (l : List Val) : Val :=
  if l.any Option.isNone ∨ l = [] then none
  else some ((l.filterMap id).sum / l.length)

/-- `np.nanmean` along a list: mean of the non-NaN entries, NaN when every
entry is NaN. -/
def nanmean (l : List Val) : Val :=
  let xs := l.filterMap id
  if xs = [] then none else some (xs.sum / xs.length)

/-- Number of TRs (time samples) of a tensor. -/
def nTRsOf (d : Tensor) : Nat := d.length

/-- Number of regions/voxels of a tensor. -/
def nVoxOf (d : Tensor) : Nat := (d.headD []).length

/-- Number of subjects of a tensor. -/
def nSubjOf (d : Tensor) : Nat := ((d.headD []).headD []).length

/-- Shape well-formedness: every time slice has the same number of regions
and every region cell the same number of subjects. -/
def wellFormed3 (d : Tensor) : Bool :=
  d.all (fun row => row.length == nVoxOf d &&
    row.all (fun cell => cell.length == nSubjOf d))

/-- `data[..., s]`: the (n_TRs, n_regions) matrix of subject `s`. -/
def subjMat (d : Tensor) (s : Nat) : Mat :=
  d.map (fun row => row.map (fun cell => cell.getD s none))

/-- `np.delete(data, s, axis=2)`: drop subject `s`. -/
def deleteSubj (d : Tensor) (s : Nat) : Tensor :=
  d.map (fun row => row.map (fun cell => cell.eraseIdx s))

/-- `mean(data, axis=2)` for a chosen mean function. -/
def meanAxis2 (meanF : List Val → Val) (d : Tensor) : Mat :=
  d.map (fun row => row.map meanF)

/-- Timeseries of subject `s` at region `v` (a column through time). -/
def voxSeries (d : Tensor) (v s : Nat) : List Val :=
  d.map (fun row => (row.getD v []).getD s none)

/-- Column `v` of a 2-D array. -/
def colOf (m : Mat) (v : Nat) : List Val :=
  m.map (fun row => row.getD v none)

/-- Whether a tensor contains no NaN at all. -/
def noNaN (d : Tensor) : Bool :=
  d.all (fun row => row.all (fun cell => cell.all Option.isSome))

/-- External numeric kernels.  Modelled from the spec: §2 declares the
"Array Correlation Primitive" an external collaborator and §6 lists the
column-wise Pearson correlation primitive and the Fisher-Z forward/inverse
transform pair (used by the Summary Statistic Reducer, §4.3) as consumed
capabilities, so both are parameters of the development. -/
structure ExtCaps where
  /-- Pearson correlation of two timeseries (one scalar per column pair). -/
  pearson : List Val → List Val → Val
  /-- `compute_summary_statistic`: Fisher-Z based column-wise reduction of a
  2-D (observation × region) array to one row, by the named statistic. -/
  computeSummaryStatistic : String → Mat → List Val

/-- Modelled from the spec: `_check_timeseries_input` (§4.2 "Validate tensor
shape; determine subject count", §7 input-shape errors are fatal) validates
the 3-D tensor shape and returns (n_TRs, n_regions, n_subjects); a malformed
tensor is a fatal input-validation error, signalled here by `none`. -/
def checkTimeseriesInput (d : Tensor) : Option (Nat × Nat × Nat) :=
  if wellFormed3 d then some (nTRsOf d, nVoxOf d, nSubjOf d) else none

/-- Modelled from the spec: the Coverage Mask of `_threshold_nans` (§3, §4.1).
With tolerance disabled a region is excluded if it contains any NaN across
any subject; with tolerance enabled a region is retained when its subject
coverage meets the implicit threshold, i.e. at least one subject has a fully
non-NaN timeseries there. -/
def nanMask (d : Tensor) (tolerate_nans : Bool) : List Bool :=
  (List.range (nVoxOf d)).map (fun v =>
    if tolerate_nans then
      (List.range (nSubjOf d)).any (fun s => (voxSeries d v s).all Option.isSome)
    else
      (List.range (nSubjOf d)).all (fun s => (voxSeries d v s).all Option.isSome))

/-- Keep the entries of `row` at the `true` positions of `mask`. -/
def applyMask (mask : List Bool) (row : List α) : List α :=
  (List.zip mask row).filterMap (fun p => if p.1 then some p.2 else none)

/-- Modelled from the spec: the filtered tensor of `_threshold_nans` (§4.1):
regions compacted to the mask, order preserved. -/
def thresholdFilter (d : Tensor) (tolerate_nans : Bool) : Tensor :=
  d.map (fun row => applyMask (nanMask d tolerate_nans) row)

/-- Scatter-back of one compacted row through the mask
(`iscs[:, np.where(mask)[0]] = iscs_stack`): retained regions receive the
successive compacted values, excluded regions stay NaN. -/
def scatterRow (mask : List Bool) (vals : List Val) : List Val :=
  match mask, vals with
  | [], _ => []
  | true :: ms, v :: vs => v :: scatterRow ms vs
  | true :: ms, [] => none :: scatterRow ms []
  | false :: ms, vs => none :: scatterRow ms vs

/-- Modelled from the spec: §5 worker-pool fan-out/fan-in — results are
assembled positionally in input order regardless of completion order, with
"no parallelism" a semantically equivalent fallback.  `joblib.Parallel` over
a generator of delayed calls is therefore an in-order map. -/
def ParallelMap (f : Nat → α) (idx : List Nat) : List α :=
  idx.map f

/-- Modelled from the spec: `array_correlation` (§2, §6): column-wise
application of the external Pearson primitive to two equal-shaped 2-D
arrays, one scalar per column. -/
def array_correlation (E : ExtCaps) (x y : Mat) : List Val :=
  (List.range ((x.headD []).length)).map (fun v => E.pearson (colOf x v) (colOf y v))

/-- Python-level exception kinds surfaced by the translated code. -/
inductive PyErr where
  /-- malformed tensor shape (fatal input-validation error) -/
  | inputError
  /-- `ValueError` (e.g. `np.column_stack` of an empty list, mismatched
  shapes in `np.append`) -/
  | valueError
  /-- `NameError` (reference to an undefined variable) -/
  | nameError
  /-- `TypeError` (e.g. `raise` applied to a plain string) -/
  | typeError
  /-- failed `assert` statement -/
  | assertionError
deriving DecidableEq

deriving instance DecidableEq for Except

/-- Result of `isc`: a 2-D (observation × region) array, or a 1-D array
after the singleton leading dimension has been squeezed away. -/
inductive IscOut where
  | mat (m : Mat)
  | vec (v : List Val)
deriving DecidableEq

/-- Shape of an `IscOut` when it is 2-D (rows, row width). -/
def IscOut.matrixShape : IscOut → Option (Nat × Nat)
  | .mat m => some (m.length, (m.headD []).length)
  | .vec _ => none

/-- `True` branch marker for `n_jobs in (1, None)`. -/
def seqJobs (n_jobs : Option Int) : Prop := n_jobs = some 1 ∨ n_jobs = none

instance : DecidablePred seqJobs := fun n_jobs => by
  unfold seqJobs; infer_instance

/-- `squareform(m, checks=False)` for a square matrix (scipy): the condensed
vector of strictly-upper-triangle entries read row-major, i.e. pairs (i, j)
with i < j, i ascending outer, j ascending inner. -/
def squareformVec (m : Mat) : List Val :=
  (List.range m.length).flatMap (fun i =>
    ((List.range m.length).drop (i + 1)).map (fun j => (m.getD i []).getD j none))

/-- `np.corrcoef(rows)`: matrix of Pearson correlations between all row
pairs, each entry given by the external Pearson primitive. -/
def corrcoef (E : ExtCaps) (rows : List (List Val)) : Mat :=
  rows.map (fun x => rows.map (fun y => E.pearson x y))

/-- `np.swapaxes(data, 2, 0)`: result indexed `[s][v][t]`. -/
def swapaxes20 (d : Tensor) : Tensor :=
  (List.range (nSubjOf d)).map (fun s =>
    (List.range (nVoxOf d)).map (fun v =>
      (List.range (nTRsOf d)).map (fun t =>
        (((d.getD t []).getD v []).getD s none))))

/-- The per-voxel condensed pairwise correlation
(`lambda x: squareform(np.corrcoef(x), checks=False)` applied to
`data[:, v, :]` of the swapped tensor). -/
def pairwise_corr (E : ExtCaps) (swapped : Tensor) (v : Nat) : List Val :=
  squareformVec (corrcoef E (swapped.map (fun subjRows => subjRows.getD v [])))

/-- `np.column_stack(vecs)` for a non-empty list of equal-length 1-D arrays:
row `i` collects entry `i` of every vector. -/
def columnStack (vecs : List (List Val)) : Mat :=
  (List.range ((vecs.headD []).length)).map (fun i => vecs.map (fun vec => vec.getD i none))

/-- The leave-one-out kernel (`loo_corr`): correlate subject `s` against the
mean of the remaining subjects. -/
def loo_corr (E : ExtCaps) (meanF : List Val → Val) (x : Tensor) (s : Nat) : List Val :=
  array_correlation E (subjMat x s) (meanAxis2 meanF (deleteSubj x s))

/-- Notices emitted through the module logger by `isc`
(`logger.info` at the two-subject special case). -/
def iscLogs (data : Tensor) : List String :=
  match checkTimeseriesInput data with
  | none => []
  | some (_, _, nSubjects) =>
      if nSubjects = 2 then
        ["Only two subjects! Simply computing Pearson correlation."]
      else []

/-- Translation of `isc` (intersubject.py lines 25-144): leave-one-out or
pairwise ISC over a (n_TRs, n_regions, n_subjects) tensor, with NaN
thresholding, optional summary statistic and singleton squeeze. -/
def isc (E : ExtCaps) (data : Tensor) (pairwise : Bool)
    (summary_statistic : Option String) (tolerate_nans : Bool)
    (n_jobs : Option Int) : Except PyErr IscOut :=
  match checkTimeseriesInput data with
  | none => .error .inputError
  | some (_, n_voxels, n_subjects) =>
    -- No summary statistic if only two subjects
    let stat := if n_subjects = 2 then none else summary_statistic
    let meanF := if tolerate_nans then nanmean else npMean
    let mask := nanMask data tolerate_nans
    let data' := thresholdFilter data tolerate_nans
    let stackE : Except PyErr Mat :=
      if n_subjects = 2 then
        -- correlation of the two participants, with a new leading axis
        .ok [array_correlation E (subjMat data' 0) (subjMat data' 1)]
      else if pairwise then
        let swapped := swapaxes20 data'
        let voxel_iscs :=
          if seqJobs n_jobs then
            ParallelMap (fun v => pairwise_corr E swapped v)
              (List.range (nVoxOf swapped))
          else
            (List.range (nVoxOf swapped)).foldl
              (fun acc v => acc ++ [pairwise_corr E swapped v]) []
        -- np.column_stack raises ValueError on an empty list
        if voxel_iscs.isEmpty then .error .valueError
        else .ok (columnStack voxel_iscs)
      else
        .ok (if ¬ seqJobs n_jobs then
          ParallelMap (fun s => loo_corr E meanF data' s) (List.range n_subjects)
        else
          (List.range n_subjects).map (fun s => loo_corr E meanF data' s))
    match stackE with
    | .error e => .error e
    | .ok iscs_stack =>
      -- scatter back into the full region width
      let iscs := iscs_stack.map (fun row => scatterRow mask row)
      let iscs := match stat with
        | some st => [E.computeSummaryStatistic st iscs]
        | none => iscs
      -- throw away first dimension if singleton
      if iscs.length = 1 then .ok (.vec (iscs.headD [])) else .ok (.mat iscs)

/-- `np.append(d1, d2, axis=-1)`: concatenate two tensors along the subject
axis (equal time and region extents assumed by the caller). -/
def appendSubj (d1 d2 : Tensor) : Tensor :=
  List.zipWith (fun r1 r2 => List.zipWith (fun c1 c2 => c1 ++ c2) r1 r2) d1 d2

/-- Result of `wmb_isc`: the within-minus-between array (`subtract_wmb`),
or the within and between arrays stacked on a new leading axis. -/
inductive WmbOut where
  | single (m : Mat)
  | stacked (w b : Mat)
deriving DecidableEq

/-- Shared prefix of `wmb_isc` (intersubject.py lines 193-243): validate both
groups, build one joint coverage mask, split back, compute per-subject
within-group (leave-one-out) and between-group (subject against other-group
mean) correlations for both groups in order, and scatter both stacks through
the mask. -/
def wmbCore (E : ExtCaps) (d1 d2 : Tensor) (tolerate_nans : Bool)
    (n_jobs : Option Int) : Except PyErr (Mat × Mat) :=
  match checkTimeseriesInput d1, checkTimeseriesInput d2 with
  | some (_, d1_n_voxels, d1_n_subs), some (_, _, d2_n_subs) =>
    -- np.append raises ValueError when the non-subject axes disagree
    if nTRsOf d1 = nTRsOf d2 ∧ nVoxOf d1 = nVoxOf d2 then
      let meanF := if tolerate_nans then nanmean else npMean
      let comb := appendSubj d1 d2
      let mask := nanMask comb tolerate_nans
      let comb' := thresholdFilter comb tolerate_nans
      let d1' := comb'.map (fun row => row.map (fun cell => cell.take d1_n_subs))
      let d2' := comb'.map (fun row => row.map (fun cell => cell.drop d1_n_subs))
      let one2avg_corr := fun (x_i : Mat) (y : Tensor) =>
        array_correlation E x_i (meanAxis2 meanF y)
      -- iteration order over `data_tup`, each group paired with the other
      -- (`data_tup[idx-1]`) and its subject count (`shape[-1]`, which the
      -- region filtering leaves untouched)
      let groups : List (Tensor × Tensor × Nat) :=
        [(d1', d2', d1_n_subs), (d2', d1', d2_n_subs)]
      let w_iscs_stack := groups.flatMap (fun g =>
        if ¬ seqJobs n_jobs then
          ParallelMap (fun s => loo_corr E meanF g.1 s) (List.range g.2.2)
        else
          (List.range g.2.2).foldl
            (fun acc s => acc ++ [loo_corr E meanF g.1 s]) [])
      let b_iscs_stack := groups.flatMap (fun g =>
        if ¬ seqJobs n_jobs then
          ParallelMap (fun s => one2avg_corr (subjMat g.1 s) g.2.1) (List.range g.2.2)
        else
          (List.range g.2.2).foldl
            (fun acc s => acc ++ [one2avg_corr (subjMat g.1 s) g.2.1]) [])
      let within_isc := w_iscs_stack.map (fun row => scatterRow mask row)
      let between_isc := b_iscs_stack.map (fun row => scatterRow mask row)
      .ok (within_isc, between_isc)
    else .error .valueError
  | _, _ => .error .inputError

/-- Translation of `wmb_isc` (intersubject.py lines 147-259): within-minus-
between group ISC.  Line 245 applies `compute_summary_statistic` to the
undefined name `iscs`, so any requested summary statistic raises a
`NameError` before the subtract branch is reached. -/
def wmb_isc (E : ExtCaps) (d1 d2 : Tensor) (subtract_wmb : Bool)
    (summary_statistic : Option String) (tolerate_nans : Bool)
    (n_jobs : Option Int) : Except PyErr WmbOut :=
  match wmbCore E d1 d2 tolerate_nans n_jobs with
  | .error e => .error e
  | .ok (within_isc, between_isc) =>
    if summary_statistic.isSome then .error .nameError
    else if subtract_wmb then .ok (.single (matSub within_isc between_isc))
    else .ok (.stacked within_isc between_isc)

/-- Input of `isc_by_segment`: a single tensor, or a two-element list of
group tensors for the `wmb` method. -/
inductive SegData where
  | single (d : Tensor)
  | pair (d1 d2 : Tensor)
deriving DecidableEq

/-- One per-segment result inside `isc_by_segment`'s output stack. -/
inductive SegItem where
  | iscItem (o : IscOut)
  | wmbItem (o : WmbOut)
deriving DecidableEq

/-- `data[start:end]` for the `i`-th window of `seg_trs` time samples. -/
def timeSlice (d : Tensor) (i seg_trs : Nat) : Tensor :=
  (d.drop (i * seg_trs)).take seg_trs

/-- The `while seg_idx > 0` loop of `isc_by_segment`: appends
`f(n_segments - seg_idx)` and decrements, propagating the first exception. -/
def segRun (f : Nat → Except PyErr α) (k : Nat) : Nat → Except PyErr (List α)
  | 0 => .ok []
  | segIdx + 1 =>
    match f (k - (segIdx + 1)) with
    | .error e => .error e
    | .ok x =>
      match segRun f k segIdx with
      | .error e => .error e
      | .ok rest => .ok (x :: rest)

/-- Translation of `isc_by_segment` (intersubject.py lines 266-308): repeat
an ISC variant over consecutive windows of `seg_trs` time samples.  The
divisibility `assert` sits in a bare `try`/`except` whose handler executes
`raise "..."` on a plain string — itself a `TypeError` — so any failure of
the guarded block surfaces as an error to the caller. -/
def isc_by_segment (E : ExtCaps) (data : SegData) (seg_trs : Nat)
    (method : String) (summary_statistic : Option String)
    (tolerate_nans : Bool) (subtract_wmb : Bool) (n_jobs : Option Int) :
    Except PyErr (List SegItem) :=
  let tryBlock : Except PyErr Nat :=
    match data, decide (method ≠ "wmb") with
    | .single d, true =>
        if seg_trs ≠ 0 ∧ d.length % seg_trs = 0 then .ok d.length
        else .error .typeError
    | .single d, false =>
        -- ndarray given to the wmb branch: `data[0].shape[0]` is its region
        -- count; when that passes, `assert type(data) is list` fails later
        if seg_trs ≠ 0 ∧ (d.headD []).length % seg_trs = 0 then
          .error .assertionError
        else .error .typeError
    | .pair _ _, true => .error .typeError   -- a list has no `.shape`
    | .pair d1 _, false =>
        if seg_trs ≠ 0 ∧ d1.length % seg_trs = 0 then .ok d1.length
        else .error .typeError
  match tryBlock with
  | .error e => .error e
  | .ok n_TRs =>
    let n_segments := n_TRs / seg_trs
    if method = "loo" then
      match data with
      | .single d =>
          segRun (fun i =>
            (isc E (timeSlice d i seg_trs) false summary_statistic
              tolerate_nans n_jobs).map .iscItem) n_segments n_segments
      | .pair _ _ => .error .typeError
    else if method = "pairwise" then
      match data with
      | .single d =>
          segRun (fun i =>
            (isc E (timeSlice d i seg_trs) true summary_statistic
              tolerate_nans n_jobs).map .iscItem) n_segments n_segments
      | .pair _ _ => .error .typeError
    else if method = "wmb" then
      match data with
      | .pair d1 d2 =>
          segRun (fun i =>
            (wmb_isc E (timeSlice d1 i seg_trs) (timeSlice d2 i seg_trs)
              subtract_wmb none tolerate_nans n_jobs).map .wmbItem)
            n_segments n_segments
      | .single _ => .error .assertionError
    else
      -- no isc_func was bound: NameError at the first loop iteration
      if n_segments = 0 then .ok [] else .error .nameError

/-- `np.argsort` of a vector: indices in ascending order of value. -/
def argsort (l : List ℚ) : List Nat :=
  (List.range l.length).mergeSort (fun i j => decide (l.getD i 0 ≤ l.getD j 0))

/-- Translation of `reorder_square_mtx` (intersubject.py lines 416-424):
permute rows then columns of a square matrix by the argsort of a key. -/
def reorder_square_mtx (mtx : Mat) (sort_idx : List ℚ) : Mat :=
  let inds := argsort sort_idx
  let m1 := inds.map (fun i => mtx.getD i [])
  m1.map (fun row => inds.map (fun j => row.getD j none))

/-- `np.triu_indices(n, k)`: row-major indices (i, j) with j ≥ i + k. -/
def triuIndices (n : Nat) (k : Int) : List (Nat × Nat) :=
  ((List.range n).flatMap (fun i => (List.range n).map (fun j => (i, j)))).filter
    (fun p => decide ((p.1 : Int) + k ≤ (p.2 : Int)))

/-- `np.tril_indices(n, k)`: row-major indices (i, j) with j ≤ i + k. -/
def trilIndices (n : Nat) (k : Int) : List (Nat × Nat) :=
  ((List.range n).flatMap (fun i => (List.range n).map (fun j => (i, j)))).filter
    (fun p => decide ((p.2 : Int) ≤ (p.1 : Int) + k))

/-- Translation of `tri2vect` (intersubject.py lines 429-445): vectorize the
upper (or lower) triangle of a square matrix, with optional reordering and
diagonal offset (default `k=1` above / `k=-1` below the diagonal). -/
def tri2vect (mtx : Mat) (upper : Bool) (sort_idx : Option (List ℚ))
    (k : Option Int) : List Val :=
  let mtx := match sort_idx with
    | some si => reorder_square_mtx mtx si
    | none => mtx
  let kk : Int := match k with
    | some kv => kv
    | none => if upper then 1 else -1
  let idx := if upper then triuIndices mtx.length kk else trilIndices mtx.length kk
  idx.map (fun p => (mtx.getD p.1 []).getD p.2 none)

/-- Whether a fallible computation raised (used to state error claims). -/
def raisesError : Except PyErr α → Bool
  | .error _ => true
  | .ok _ => false

/-- Whether a fallible computation returned normally. -/
def isOkE : Except PyErr α → Bool
  | .ok _ => true
  | .error _ => false

/-- A stub instance of the external capabilities, used for concrete runs:
its Pearson kernel returns NaN for every pair. -/
def extStub : ExtCaps := ⟨fun _ _ => none, fun _ _ => []⟩

/-- Concrete tensor with 2 TRs, 1 region, 2 subjects. -/
def twoSubjData : Tensor := [[[some 1, some 2]], [[some 3, some 4]]]

/-- Concrete tensor with 2 TRs, 2 regions, 3 subjects, no NaN. -/
def threeSubjData : Tensor :=
  [[[some 1, some 2, some 3], [some 0, some 1, some 2]],
   [[some 3, some 4, some 5], [some 1, some 0, some 2]]]

/-- Concrete tensor with 2 TRs, 2 regions, 3 subjects, every value NaN:
every region fails the coverage threshold. -/
def allNaNData : Tensor :=
  [[[none, none, none], [none, none, none]],
   [[none, none, none], [none, none, none]]]

/-- Concrete group tensor (2 TRs, 1 region, 1 subject). -/
def groupA : Tensor := [[[some 1]], [[some 2]]]

/-- Concrete second group tensor of the same time/region extents. -/
def groupB : Tensor := [[[some 3]], [[some 5]]]

/-- Concrete symmetric 3×3 matrix. -/
def symMat3 : Mat :=
  [[some 1, some 2, some 3], [some 2, some 1, some 4], [some 3, some 4, some 1]]

/-- Symmetry of a square matrix, as a decidable check. -/
def isSymmB (m : Mat) : Bool :=
  (List.range m.length).all (fun i => (List.range m.length).all (fun j =>
    (m.getD i []).getD j none == (m.getD j []).getD i none))

section Helpers

lemma foldl_append_eq_map (f : β → α) (l : List β) :
    l.foldl (fun acc v => acc ++ [f v]) [] = l.map f := by
  suffices h : ∀ init : List α, l.foldl (fun acc v => acc ++ [f v]) init = init ++ l.map f by
    simpa using h []
  induction l with
  | nil => intro init; simp
  | cons x xs ih => intro init; simp [List.foldl_cons, ih]

lemma getD_map (g : α → β) (row : List α) (v : Nat) (d : α) :
    (row.map g).getD v (g d) = g (row.getD v d) := by
  induction row generalizing v with
  | nil => simp
  | cons x xs ih => cases v <;> simp [ih]

lemma headD_map (f : α → β) (l : List α) (d : α) :
    (l.map f).headD (f d) = f (l.headD d) := by
  cases l <;> simp

lemma applyMask_replicate_true (row : List α) :
    applyMask (List.replicate row.length true) row = row := by
  induction row with
  | nil => rfl
  | cons x xs ih => simpa [applyMask, List.replicate_succ] using ih

lemma applyMask_mem {mask : List Bool} {row : List α} {x : α}
    (hx : x ∈ applyMask mask row) : x ∈ row := by
  unfold applyMask at hx
  obtain ⟨⟨b, y⟩, hmem, hy⟩ := List.mem_filterMap.mp hx
  have := List.of_mem_zip hmem
  cases b with
  | true => simp at hy; subst hy; exact this.2
  | false => simp at hy

lemma applyMask_ne_nil {mask : List Bool} {row : List α}
    (hany : mask.any id = true) (hlen : mask.length ≤ row.length) :
    applyMask mask row ≠ [] := by
  induction mask generalizing row with
  | nil => simp at hany
  | cons b ms ih =>
    cases row with
    | nil => simp at hlen
    | cons x xs =>
      cases b with
      | true => simp [applyMask]
      | false =>
        simp only [List.any_cons, id, Bool.false_or] at hany
        have := ih hany (by simpa using Nat.le_of_succ_le_succ hlen)
        simpa [applyMask] using this

lemma scatterRow_length (mask : List Bool) (vals : List Val) :
    (scatterRow mask vals).length = mask.length := by
  induction mask generalizing vals with
  | nil => simp [scatterRow]
  | cons b ms ih =>
    cases b with
    | true => cases vals <;> simp [scatterRow, ih]
    | false => simp [scatterRow, ih]

lemma scatterRow_replicate_true (vals : List Val) :
    scatterRow (List.replicate vals.length true) vals = vals := by
  induction vals with
  | nil => rfl
  | cons v vs ih => simpa [scatterRow, List.replicate_succ] using ih

lemma range_filter_le_eq_drop (k n : Nat) :
    (List.range n).filter (fun j => decide (k ≤ j)) = (List.range n).drop k := by
  induction n with
  | zero => simp
  | succ n ih =>
    rw [List.range_succ, List.filter_append]
    by_cases h : k ≤ n
    · rw [List.drop_append_of_le_length (by simpa using h)]
      simp [ih, h]
    · have h1 : n < k := Nat.lt_of_not_le h
      have h2 : (List.range n).drop k = [] :=
        List.drop_eq_nil_of_le (by simpa using Nat.le_of_lt h1)
      have h3 : (List.range n ++ [n]).drop k = [] :=
        List.drop_eq_nil_of_le (by simpa using h1)
      rw [h3, ih, h2]
      simp [h]

lemma map_sub_range (n : Nat) :
    (List.range n).map (fun i => n - (i + 1)) = (List.range n).reverse := by
  induction n with
  | zero => rfl
  | succ n ih =>
    have hmap : (List.range (n + 1)).map (fun i => n + 1 - (i + 1))
        = n :: (List.range n).map (fun i => n - (i + 1)) := by
      rw [List.range_succ_eq_map]
      simp only [List.map_cons, List.map_map]
      congr 1
      apply List.map_congr_left
      intro i _
      simp only [Function.comp]
      omega
    rw [hmap, ih, List.range_succ, List.reverse_append]
    rfl

lemma sum_range_mul_two (n : Nat) : (List.range n).sum * 2 = n * (n - 1) := by
  induction n with
  | zero => rfl
  | succ n ih =>
    rw [List.range_succ, List.sum_append]
    simp only [List.sum_cons, List.sum_nil, Nat.add_zero]
    have key : ((List.range n).sum + n) * 2 = (List.range n).sum * 2 + 2 * n := by ring
    rw [key, ih]
    cases n with
    | zero => rfl
    | succ m =>
      have hm : m + 1 + 1 - 1 = m + 1 := rfl
      rw [hm]
      have hm2 : m + 1 - 1 = m := rfl
      rw [hm2]
      ring

lemma squareformVec_length (m : Mat) :
    (squareformVec m).length = m.length * (m.length - 1) / 2 := by
  have h1 : (squareformVec m).length = ((List.range m.length).map (fun i => m.length - (i + 1))).sum := by
    rw [squareformVec, List.length_flatMap]
    congr 1
    apply List.map_congr_left
    intro i _
    simp [Function.comp]
  rw [h1, map_sub_range, List.sum_reverse]
  have := sum_range_mul_two m.length
  omega

lemma nanMask_length (d : Tensor) (tol : Bool) : (nanMask d tol).length = nVoxOf d := by
  simp [nanMask]

end Helpers

section MaskLemmas

lemma wf_row_length {d : Tensor} (wf : wellFormed3 d = true) {row : List (List Val)}
    (h : row ∈ d) : row.length = nVoxOf d := by
  have h1 := (List.all_eq_true.mp wf) row h
  rw [Bool.and_eq_true] at h1
  simpa using h1.1

lemma wf_cell_length {d : Tensor} (wf : wellFormed3 d = true) {row : List (List Val)}
    (hr : row ∈ d) {cell : List Val} (hc : cell ∈ row) : cell.length = nSubjOf d := by
  have h1 := (List.all_eq_true.mp wf) row hr
  rw [Bool.and_eq_true] at h1
  have h2 := (List.all_eq_true.mp h1.2) cell hc
  simpa using h2

lemma getD_mem (l : List α) (i : Nat) (d : α) (h : i < l.length) :
    l.getD i d ∈ l := by
  rw [List.getD_eq_getElem?_getD, List.getElem?_eq_getElem h]
  simp

lemma voxSeries_all_some {d : Tensor} (wf : wellFormed3 d = true)
    (hN : noNaN d = true) {v s : Nat} (hv : v < nVoxOf d) (hs : s < nSubjOf d) :
    (voxSeries d v s).all Option.isSome = true := by
  rw [List.all_eq_true]
  intro x hx
  unfold voxSeries at hx
  obtain ⟨row, hrow, hxeq⟩ := List.mem_map.mp hx
  have hrl : row.length = nVoxOf d := wf_row_length wf hrow
  have hcell : row.getD v [] ∈ row := getD_mem row v [] (by omega)
  have hclen : (row.getD v []).length = nSubjOf d := wf_cell_length wf hrow hcell
  have hxmem : (row.getD v []).getD s none ∈ row.getD v [] :=
    getD_mem (row.getD v []) s none (by omega)
  have hnn := (List.all_eq_true.mp hN) row hrow
  have hnn2 := (List.all_eq_true.mp hnn) _ hcell
  have hnn3 := (List.all_eq_true.mp hnn2) _ hxmem
  rw [← hxeq]
  exact hnn3

lemma nanMask_all_true (d : Tensor) (tol : Bool) (wf : wellFormed3 d = true)
    (hN : noNaN d = true) (hS : 1 ≤ nSubjOf d) :
    nanMask d tol = List.replicate (nVoxOf d) true := by
  have hlen : (nanMask d tol).length = nVoxOf d := nanMask_length d tol
  rw [← hlen]
  apply List.eq_replicate_of_mem
  intro b hb
  unfold nanMask at hb
  obtain ⟨v, hv, hbeq⟩ := List.mem_map.mp hb
  have hv' : v < nVoxOf d := List.mem_range.mp hv
  subst hbeq
  cases tol with
  | true =>
    rw [if_pos rfl, List.any_eq_true]
    exact ⟨0, List.mem_range.mpr hS, voxSeries_all_some wf hN hv' hS⟩
  | false =>
    rw [if_neg (by decide), List.all_eq_true]
    intro s hs
    exact voxSeries_all_some wf hN hv' (List.mem_range.mp hs)

lemma thresholdFilter_noNaN (d : Tensor) (tol : Bool) (wf : wellFormed3 d = true)
    (hN : noNaN d = true) (hS : 1 ≤ nSubjOf d) :
    thresholdFilter d tol = d := by
  unfold thresholdFilter
  rw [nanMask_all_true d tol wf hN hS]
  have h1 : ∀ row ∈ d, applyMask (List.replicate (nVoxOf d) true) row = row := by
    intro row hrow
    rw [← wf_row_length wf hrow]
    exact applyMask_replicate_true row
  rw [List.map_congr_left h1]
  simp

lemma colOf_subjMat (d : Tensor) (s v : Nat) :
    colOf (subjMat d s) v = voxSeries d v s := by
  unfold colOf subjMat voxSeries
  rw [List.map_map]
  apply List.map_congr_left
  intro row _
  have h := getD_map (fun cell => cell.getD s none) row v []
  simpa using h

lemma subjMat_headD_length (d : Tensor) (s : Nat) :
    ((subjMat d s).headD []).length = nVoxOf d := by
  unfold subjMat
  have h := headD_map (fun row => row.map (fun cell => cell.getD s none)) d []
  simp only [List.map_nil] at h
  rw [h, List.length_map]
  rfl

end MaskLemmas

section IscLemmas

lemma checkTimeseriesInput_some {d : Tensor} {T V S : Nat}
    (hc : checkTimeseriesInput d = some (T, V, S)) :
    wellFormed3 d = true ∧ T = nTRsOf d ∧ V = nVoxOf d ∧ S = nSubjOf d := by
  unfold checkTimeseriesInput at hc
  split at hc
  · rename_i hw
    simp only [Option.some_inj, Prod.mk.injEq] at hc
    exact ⟨hw, hc.1.symm, hc.2.1.symm, hc.2.2.symm⟩
  · exact absurd hc (by simp)

lemma isc_two_subject (E : ExtCaps) (data : Tensor) (pw : Bool)
    (stat : Option String) (tol : Bool) (nj : Option Int)
    {T V : Nat} (hc : checkTimeseriesInput data = some (T, V, 2)) :
    isc E data pw stat tol nj =
      .ok (.vec (scatterRow (nanMask data tol)
        (array_correlation E (subjMat (thresholdFilter data tol) 0)
          (subjMat (thresholdFilter data tol) 1)))) := by
  unfold isc
  rw [hc]
  rfl

lemma pairwise_stack_norm (f : Nat → List Val) (l : List Nat) (nj : Option Int) :
    (if seqJobs nj then ParallelMap f l
     else l.foldl (fun acc v => acc ++ [f v]) []) = l.map f := by
  split
  · rfl
  · exact foldl_append_eq_map f l

lemma loo_stack_norm (g : Nat → List Val) (l : List Nat) (nj : Option Int) :
    (if ¬ seqJobs nj then ParallelMap g l else l.map g) = l.map g := by
  split <;> rfl

end IscLemmas

/-- C2: with exactly two subjects, `isc` ignores any requested summary
statistic (the output is the one of `summary_statistic=None`), returns
normally, yields per region the direct cross-subject Pearson correlation of
the two subjects' timeseries (stated for NaN-free data, where the coverage
mask retains every region), and the two-subject notice is logged. -/
theorem isc_two_subject_pearson (E : ExtCaps) (data : Tensor) (pw : Bool)
    (stat : Option String) (tol : Bool) (nj : Option Int)
    (T V : Nat) (hc : checkTimeseriesInput data = some (T, V, 2)) :
    isc E data pw stat tol nj = isc E data pw none tol nj
    ∧ isOkE (isc E data pw stat tol nj) = true
    ∧ (noNaN data = true →
        isc E data pw stat tol nj = .ok (.vec ((List.range V).map (fun v =>
          E.pearson (voxSeries data v 0) (voxSeries data v 1)))))
    ∧ iscLogs data ≠ [] := by
  obtain ⟨wf, hT, hV, hS⟩ := checkTimeseriesInput_some hc
  refine ⟨?_, ?_, ?_, ?_⟩
  · rw [isc_two_subject E data pw stat tol nj hc,
      isc_two_subject E data pw none tol nj hc]
  · rw [isc_two_subject E data pw stat tol nj hc]
    rfl
  · intro hN
    have hS1 : 1 ≤ nSubjOf data := by omega
    rw [isc_two_subject E data pw stat tol nj hc,
      thresholdFilter_noNaN data tol wf hN hS1]
    have hvals : array_correlation E (subjMat data 0) (subjMat data 1)
        = (List.range V).map (fun v =>
            E.pearson (voxSeries data v 0) (voxSeries data v 1)) := by
      unfold array_correlation
      rw [subjMat_headD_length, ← hV]
      apply List.map_congr_left
      intro v _
      rw [colOf_subjMat, colOf_subjMat]
    rw [hvals, nanMask_all_true data tol wf hN hS1]
    have hlen : ((List.range V).map (fun v =>
        E.pearson (voxSeries data v 0) (voxSeries data v 1))).length = nVoxOf data := by
      rw [List.length_map, List.length_range, hV]
    rw [← hlen, scatterRow_replicate_true]
  · unfold iscLogs
    rw [hc]
    simp

/-- C2 witness: concrete two-subject tensor, `mean` requested. -/
theorem isc_two_subject_pearson_witness :
    isc ⟨fun _ _ => none, fun _ _ => []⟩ [[[some 1, some 2]], [[some 3, some 4]]]
        false (some "mean") true none
      = isc ⟨fun _ _ => none, fun _ _ => []⟩ [[[some 1, some 2]], [[some 3, some 4]]]
        false none true none
    ∧ iscLogs [[[some 1, some 2]], [[some 3, some 4]]] ≠ [] := by
  have h := isc_two_subject_pearson ⟨fun _ _ => none, fun _ _ => []⟩
    [[[some 1, some 2]], [[some 3, some 4]]] false (some "mean") true none
    2 1 (by decide)
  exact ⟨h.1, h.2.2.2⟩

/-- C10: with exactly two subjects the two-subject special case fires before
the pairwise dispatch, so the `pairwise` flag has no effect on the result. -/
theorem isc_two_subject_pairwise_flag_noop (E : ExtCaps) (data : Tensor)
    (stat : Option String) (tol : Bool) (nj : Option Int)
    (h2 : nSubjOf data = 2) :
    isc E data true stat tol nj = isc E data false stat tol nj := by
  cases hc : checkTimeseriesInput data with
  | none => unfold isc; rw [hc]
  | some trip =>
    obtain ⟨T, V, S⟩ := trip
    obtain ⟨_, _, _, hS⟩ := checkTimeseriesInput_some hc
    have hS2 : S = 2 := by omega
    subst hS2
    rw [isc_two_subject E data true stat tol nj hc,
      isc_two_subject E data false stat tol nj hc]

/-- C10 witness: the concrete two-subject tensor, both flag values. -/
theorem isc_two_subject_pairwise_flag_noop_witness :
    isc ⟨fun _ _ => none, fun _ _ => []⟩ [[[some 1, some 2]], [[some 3, some 4]]]
        true (some "median") true (some 4)
      = isc ⟨fun _ _ => none, fun _ _ => []⟩ [[[some 1, some 2]], [[some 3, some 4]]]
        false (some "median") true (some 4) :=
  isc_two_subject_pairwise_flag_noop ⟨fun _ _ => none, fun _ _ => []⟩
    [[[some 1, some 2]], [[some 3, some 4]]] (some "median") true (some 4) (by decide)

/-- C9: the result of `isc` is independent of `n_jobs` — the parallel
dispatch and the sequential loop of both the pairwise and the leave-one-out
mode assemble the same per-unit results in input order. -/
theorem isc_njobs_invariant (E : ExtCaps) (data : Tensor) (pw : Bool)
    (stat : Option String) (tol : Bool) (nj : Option Int) :
    isc E data pw stat tol nj = isc E data pw stat tol none := by
  cases hc : checkTimeseriesInput data with
  | none => unfold isc; rw [hc]
  | some trip =>
    obtain ⟨T, V, S⟩ := trip
    unfold isc
    rw [hc]
    simp only [pairwise_stack_norm, loo_stack_norm]

/-- C5: with no summary statistic, `wmb_isc` with `subtract_wmb=True` returns
exactly the elementwise difference of the within-array and between-array
that `subtract_wmb=False` returns, for identical inputs. -/
theorem wmb_subtract_eq_diff (E : ExtCaps) (d1 d2 : Tensor) (tol : Bool)
    (nj : Option Int) (W B : Mat)
    (h : wmb_isc E d1 d2 false none tol nj = .ok (.stacked W B)) :
    wmb_isc E d1 d2 true none tol nj = .ok (.single (matSub W B)) := by
  unfold wmb_isc at h ⊢
  cases hcore : wmbCore E d1 d2 tol nj with
  | error e => rw [hcore] at h; exact absurd h (by simp)
  | ok p =>
    obtain ⟨w, b⟩ := p
    rw [hcore] at h
    simp only [Option.isSome_none, Bool.false_eq_true, if_false, if_pos,
      Except.ok.injEq, WmbOut.stacked.injEq, if_true] at h
    obtain ⟨hw, hb⟩ := h
    simp [hw, hb]

/-- C5 witness: concrete groups where the stacked call returns all-NaN
within/between arrays. -/
theorem wmb_subtract_eq_diff_witness :
    wmb_isc extStub groupA groupB true none true none
      = .ok (.single (matSub [[none], [none]] [[none], [none]])) :=
  wmb_subtract_eq_diff extStub groupA groupB true none
    [[none], [none]] [[none], [none]] (by decide)

/-- C3: requesting any summary statistic makes `wmb_isc` raise a `NameError`
(line 245 applies the reducer to the undefined name `iscs`) before the
subtract branch can run, for either value of `subtract_wmb`; with no summary
statistic the subtract call returns the within-minus-between array and the
non-subtract call returns the [within, between] pair, as the claim states. -/
theorem wmb_summary_stat_crash :
    wmb_isc extStub groupA groupB true (some "mean") true none = .error .nameError
    ∧ wmb_isc extStub groupA groupB false (some "mean") true none = .error .nameError
    ∧ wmb_isc extStub groupA groupB true none true none
        = .ok (.single (matSub [[none], [none]] [[none], [none]]))
    ∧ wmb_isc extStub groupA groupB false none true none
        = .ok (.stacked [[none], [none]] [[none], [none]]) := by
  refine ⟨by decide, by decide, by decide, by decide⟩

/-- C4: on a tensor whose every region fails the NaN-coverage threshold,
leave-one-out `isc` returns the all-NaN full-width array the spec requires,
but pairwise `isc` raises (`np.column_stack` on the empty per-voxel list),
contradicting the claim's "does not fail in either mode". -/
theorem isc_all_excluded :
    isc extStub allNaNData false none true none
      = .ok (.mat [[none, none], [none, none], [none, none]])
    ∧ isc extStub allNaNData true none true none = .error .valueError := by
  refine ⟨by decide, by decide⟩

/-- C1 counterexample: on a valid two-subject tensor (2 TRs, 1 region,
2 subjects) both `isc` modes return a 1-D squeezed array rather than the
claimed 2-D arrays of shape (n_subjects, n_regions) = (2, 1) and
(n_subjects·(n_subjects−1)/2, n_regions) = (1, 1). -/
theorem isc_shape_fails_two_subjects :
    (isc extStub twoSubjData false none true none).map IscOut.matrixShape
      = .ok none
    ∧ (isc extStub twoSubjData true none true none).map IscOut.matrixShape
      = .ok none := by
  refine ⟨by decide, by decide⟩

/-- C7: when the time length is not evenly divisible by `seg_trs`,
`isc_by_segment` raises to the caller (the divisibility `assert` fails and
the handler's `raise` on a plain string is itself an error) and returns no
result, for every method string and for the `wmb` group-pair form. -/
theorem isc_by_segment_nondivisible_raises (E : ExtCaps) (stat : Option String)
    (tol sub : Bool) (nj : Option Int) :
    (∀ (d : Tensor) (seg : Nat) (method : String), method ≠ "wmb" →
      ¬ (seg ∣ d.length) →
      raisesError (isc_by_segment E (.single d) seg method stat tol sub nj) = true)
    ∧ (∀ (d1 d2 : Tensor) (seg : Nat), ¬ (seg ∣ d1.length) →
      raisesError (isc_by_segment E (.pair d1 d2) seg "wmb" stat tol sub nj) = true) := by
  constructor
  · intro d seg method hm hdvd
    have hcond : ¬ (seg ≠ 0 ∧ d.length % seg = 0) := by
      rintro ⟨_, hmod⟩
      exact hdvd (Nat.dvd_of_mod_eq_zero hmod)
    have hdm : decide (method ≠ "wmb") = true := decide_eq_true hm
    unfold isc_by_segment
    simp only [hdm, if_neg hcond]
    rfl
  · intro d1 d2 seg hdvd
    have hcond : ¬ (seg ≠ 0 ∧ d1.length % seg = 0) := by
      rintro ⟨_, hmod⟩
      exact hdvd (Nat.dvd_of_mod_eq_zero hmod)
    have hwm : decide ("wmb" ≠ "wmb") = false := by decide
    unfold isc_by_segment
    simp only [hwm, if_neg hcond]
    rfl

/-- C7 witness: 2 TRs and segment length 3 (and 4) do not divide. -/
theorem isc_by_segment_nondivisible_raises_witness :
    raisesError (isc_by_segment extStub (.single threeSubjData) 3 "loo"
      none true false none) = true
    ∧ raisesError (isc_by_segment extStub (.pair groupA groupB) 4 "wmb"
      none true false none) = true :=
  ⟨(isc_by_segment_nondivisible_raises extStub none true false none).1
      threeSubjData 3 "loo" (by decide) (by decide),
   (isc_by_segment_nondivisible_raises extStub none true false none).2
      groupA groupB 4 (by decide)⟩

section TriangleLemmas

lemma triuIndices_one (n : Nat) :
    triuIndices n 1 = (List.range n).flatMap
      (fun i => ((List.range n).drop (i + 1)).map (fun j => (i, j))) := by
  unfold triuIndices
  rw [List.filter_flatMap]
  apply List.flatMap_congr
  intro i _
  rw [List.filter_map]
  have hcongr : List.filter ((fun p : Nat × Nat =>
        decide ((p.1 : Int) + 1 ≤ (p.2 : Int))) ∘ (fun j => (i, j))) (List.range n)
      = List.filter (fun j : Nat => decide (i + 1 ≤ j)) (List.range n) := by
    apply List.filter_congr
    intro j _
    simp only [Function.comp]
    rw [decide_eq_decide]
    constructor
    · intro h; exact_mod_cast h
    · intro h; exact_mod_cast h
  rw [hcongr, range_filter_le_eq_drop]

end TriangleLemmas

/-- C8: on a symmetric square matrix, `tri2vect` with `upper=True`, no
reordering and the default diagonal offset enumerates the strictly-upper
triangle in exactly the pair order (i < j, i ascending outer, j ascending
inner) of the condensed `squareform` vector that pairwise ISC produces, so
the two vectorization routines agree entry for entry. -/
theorem tri2vect_matches_pairwise_order (m : Mat)
    (hsq : m.all (fun r => r.length == m.length) = true)
    (hsymm : isSymmB m = true) :
    tri2vect m true none none = squareformVec m := by
  show (triuIndices m.length 1).map (fun p => (m.getD p.1 []).getD p.2 none)
    = squareformVec m
  rw [triuIndices_one, List.map_flatMap]
  unfold squareformVec
  apply List.flatMap_congr
  intro i _
  rw [List.map_map]
  rfl

/-- C8 witness: a concrete symmetric 3×3 matrix. -/
theorem tri2vect_matches_pairwise_order_witness :
    tri2vect symMat3 true none none = squareformVec symMat3 :=
  tri2vect_matches_pairwise_order symMat3 (by decide) (by decide)

section SegLemmas

lemma segRun_ok {f : Nat → Except PyErr α} {k j : Nat} {out : List α} (d0 : α)
    (hj : j ≤ k) (h : segRun f k j = .ok out) :
    out.length = j ∧ ∀ i < j, f (k - j + i) = .ok (out.getD i d0) := by
  induction j generalizing out with
  | zero =>
    unfold segRun at h
    simp only [Except.ok.injEq] at h
    subst h
    exact ⟨rfl, by omega⟩
  | succ j ih =>
    unfold segRun at h
    cases hf : f (k - (j + 1)) with
    | error e => rw [hf] at h; exact absurd h (by simp)
    | ok x =>
      rw [hf] at h
      cases hrest : segRun f k j with
      | error e => rw [hrest] at h; exact absurd h (by simp)
      | ok rest =>
        rw [hrest] at h
        simp only [Except.ok.injEq] at h
        subst h
        obtain ⟨hlen, hall⟩ := ih (by omega) hrest
        refine ⟨by simp [hlen], ?_⟩
        intro i hi
        cases i with
        | zero => simpa using hf
        | succ i =>
          have harg : k - (j + 1) + (i + 1) = k - j + i := by omega
          have := hall i (by omega)
          rw [← harg] at this
          simpa using this

end SegLemmas

/-- C6: when `seg_trs` divides the time length into `k` windows,
`isc_by_segment` returns a stack with leading length `k` whose `i`-th slice
is exactly the selected ISC variant (`loo`, `pairwise` or `wmb`) applied
independently to the `i`-th contiguous window
`[i*seg_trs, (i+1)*seg_trs)`, in increasing time order. -/
theorem isc_by_segment_windows (E : ExtCaps) (seg k : Nat)
    (stat : Option String) (tol sub : Bool) (nj : Option Int)
    (hseg : seg ≠ 0) :
    (∀ (d : Tensor) (out : List SegItem),
      d.length = k * seg →
      isc_by_segment E (.single d) seg "loo" stat tol sub nj = .ok out →
      out.length = k ∧ ∀ i < k,
        (isc E (timeSlice d i seg) false stat tol nj).map SegItem.iscItem
          = .ok (out.getD i (SegItem.iscItem (.vec []))))
    ∧ (∀ (d : Tensor) (out : List SegItem),
      d.length = k * seg →
      isc_by_segment E (.single d) seg "pairwise" stat tol sub nj = .ok out →
      out.length = k ∧ ∀ i < k,
        (isc E (timeSlice d i seg) true stat tol nj).map SegItem.iscItem
          = .ok (out.getD i (SegItem.iscItem (.vec []))))
    ∧ (∀ (d1 d2 : Tensor) (out : List SegItem),
      d1.length = k * seg →
      isc_by_segment E (.pair d1 d2) seg "wmb" stat tol sub nj = .ok out →
      out.length = k ∧ ∀ i < k,
        (wmb_isc E (timeSlice d1 i seg) (timeSlice d2 i seg) sub none tol nj).map
          SegItem.wmbItem = .ok (out.getD i (SegItem.iscItem (.vec [])))) := by
  refine ⟨?_, ?_, ?_⟩
  · intro d out hlen hrun
    have hmod : d.length % seg = 0 := by rw [hlen]; exact Nat.mul_mod_left k seg
    have hdiv : d.length / seg = k := by
      rw [hlen]; exact Nat.mul_div_cancel k (Nat.pos_of_ne_zero hseg)
    unfold isc_by_segment at hrun
    simp only [show (decide ("loo" ≠ "wmb")) = true from by decide,
      show ("loo" = "loo") = True from by simp,
      if_pos (And.intro hseg hmod), hdiv, if_true] at hrun
    have h := segRun_ok (SegItem.iscItem (.vec [])) (le_refl k) hrun
    refine ⟨h.1, ?_⟩
    intro i hi
    have hh := h.2 i hi
    rwa [Nat.sub_self, Nat.zero_add] at hh
  · intro d out hlen hrun
    have hmod : d.length % seg = 0 := by rw [hlen]; exact Nat.mul_mod_left k seg
    have hdiv : d.length / seg = k := by
      rw [hlen]; exact Nat.mul_div_cancel k (Nat.pos_of_ne_zero hseg)
    unfold isc_by_segment at hrun
    simp only [show (decide ("pairwise" ≠ "wmb")) = true from by decide,
      show ("pairwise" = "loo") = False from by simp,
      show ("pairwise" = "pairwise") = True from by simp,
      if_pos (And.intro hseg hmod), hdiv, if_true, if_false] at hrun
    have h := segRun_ok (SegItem.iscItem (.vec [])) (le_refl k) hrun
    refine ⟨h.1, ?_⟩
    intro i hi
    have hh := h.2 i hi
    rwa [Nat.sub_self, Nat.zero_add] at hh
  · intro d1 d2 out hlen hrun
    have hmod : d1.length % seg = 0 := by rw [hlen]; exact Nat.mul_mod_left k seg
    have hdiv : d1.length / seg = k := by
      rw [hlen]; exact Nat.mul_div_cancel k (Nat.pos_of_ne_zero hseg)
    unfold isc_by_segment at hrun
    have hwm : decide ("wmb" ≠ "wmb") = false := by decide
    simp only [hwm,
      show ("wmb" = "loo") = False from by simp,
      show ("wmb" = "pairwise") = False from by simp,
      show ("wmb" = "wmb") = True from by simp,
      if_pos (And.intro hseg hmod), hdiv, if_true, if_false] at hrun
    have h := segRun_ok (SegItem.iscItem (.vec [])) (le_refl k) hrun
    refine ⟨h.1, ?_⟩
    intro i hi
    have hh := h.2 i hi
    rwa [Nat.sub_self, Nat.zero_add] at hh

/-- C6 witness: two windows of one TR each, for the loo variant and the wmb
group-pair variant. -/
theorem isc_by_segment_windows_witness :
    ([SegItem.iscItem (.mat [[none, none], [none, none], [none, none]]),
      SegItem.iscItem (.mat [[none, none], [none, none], [none, none]])].length = 2
    ∧ (isc extStub (timeSlice threeSubjData 0 1) false none true none).map
        SegItem.iscItem
      = .ok ([SegItem.iscItem (.mat [[none, none], [none, none], [none, none]]),
          SegItem.iscItem (.mat [[none, none], [none, none], [none, none]])].getD 0
          (SegItem.iscItem (.vec []))))
    ∧ ((wmb_isc extStub (timeSlice groupA 1 1) (timeSlice groupB 1 1) false none
        true none).map SegItem.wmbItem
      = .ok ([SegItem.wmbItem (.stacked [[none], [none]] [[none], [none]]),
          SegItem.wmbItem (.stacked [[none], [none]] [[none], [none]])].getD 1
          (SegItem.iscItem (.vec [])))) := by
  have hloo := (isc_by_segment_windows extStub 1 2 none true false none
    (by decide)).1 threeSubjData
    [SegItem.iscItem (.mat [[none, none], [none, none], [none, none]]),
     SegItem.iscItem (.mat [[none, none], [none, none], [none, none]])]
    (by decide) (by decide)
  have hwmb := (isc_by_segment_windows extStub 1 2 none true false none
    (by decide)).2.2 groupA groupB
    [SegItem.wmbItem (.stacked [[none], [none]] [[none], [none]]),
     SegItem.wmbItem (.stacked [[none], [none]] [[none], [none]])]
    (by decide) (by decide)
  exact ⟨⟨hloo.1, hloo.2 0 (by omega)⟩, hwmb.2 1 (by omega)⟩

lemma isc_loo_reduce (E : ExtCaps) (data : Tensor) (tol : Bool) (nj : Option Int)
    {T V S : Nat} (hc : checkTimeseriesInput data = some (T, V, S)) (h2 : S ≠ 2) :
    isc E data false none tol nj =
      (let iscs := ((List.range S).map (fun s =>
          loo_corr E (if tol then nanmean else npMean) (thresholdFilter data tol) s)).map
        (fun row => scatterRow (nanMask data tol) row)
       if iscs.length = 1 then .ok (.vec (iscs.headD [])) else .ok (.mat iscs)) := by
  unfold isc
  rw [hc]
  simp only [if_neg h2, loo_stack_norm]
  rfl

lemma isc_pairwise_reduce (E : ExtCaps) (data : Tensor) (tol : Bool) (nj : Option Int)
    {T V S : Nat} (hc : checkTimeseriesInput data = some (T, V, S)) (h2 : S ≠ 2) :
    isc E data true none tol nj =
      (let voxel_iscs := (List.range (nVoxOf (swapaxes20 (thresholdFilter data tol)))).map
          (fun v => pairwise_corr E (swapaxes20 (thresholdFilter data tol)) v)
       if voxel_iscs.isEmpty then .error .valueError
       else
         let iscs := (columnStack voxel_iscs).map
           (fun row => scatterRow (nanMask data tol) row)
         if iscs.length = 1 then .ok (.vec (iscs.headD [])) else .ok (.mat iscs)) := by
  unfold isc
  rw [hc]
  simp only [if_neg h2, pairwise_stack_norm]
  by_cases he : ((List.range (nVoxOf (swapaxes20 (thresholdFilter data tol)))).map
      (fun v => pairwise_corr E (swapaxes20 (thresholdFilter data tol)) v)).isEmpty = true
  · simp only [he, if_true]
  · simp only [Bool.not_eq_true] at he
    simp only [he]
    rfl

lemma headD_length {α : Type} (l : List (List α)) (n : Nat) (hne : l ≠ [])
    (hall : ∀ x ∈ l, x.length = n) : (l.headD []).length = n := by
  cases l with
  | nil => exact absurd rfl hne
  | cons x xs => exact hall x (List.mem_cons_self x xs)

lemma headD_map_range {β : Type} (g : Nat → β) (n : Nat) (d : β) (hn : 1 ≤ n) :
    ((List.range n).map g).headD d = g 0 := by
  obtain ⟨m, rfl⟩ := Nat.exists_eq_succ_of_ne_zero (by omega : n ≠ 0)
  rw [List.range_succ_eq_map]
  simp

lemma thresholdFilter_dims (data : Tensor) (tol : Bool)
    (wf : wellFormed3 data = true)
    (hany : (nanMask data tol).any id = true) :
    nSubjOf (thresholdFilter data tol) = nSubjOf data
    ∧ 1 ≤ nVoxOf (thresholdFilter data tol) := by
  have hV1 : 1 ≤ nVoxOf data := by
    by_contra h
    have h0 : nVoxOf data = 0 := by omega
    rw [nanMask, h0] at hany
    simp at hany
  have hdne : data ≠ [] := by
    intro h
    rw [h] at hV1
    simp [nVoxOf] at hV1
  obtain ⟨r0, rest, rfl⟩ := List.exists_cons_of_ne_nil hdne
  have hr0 : r0 ∈ r0 :: rest := List.mem_cons_self r0 rest
  have hr0len : r0.length = nVoxOf (r0 :: rest) := wf_row_length wf hr0
  have hmlen : (nanMask (r0 :: rest) tol).length ≤ r0.length := by
    rw [nanMask_length, hr0len]
  have happne : applyMask (nanMask (r0 :: rest) tol) r0 ≠ [] :=
    applyMask_ne_nil hany hmlen
  have hfilt : thresholdFilter (r0 :: rest) tol
      = applyMask (nanMask (r0 :: rest) tol) r0
        :: rest.map (fun row => applyMask (nanMask (r0 :: rest) tol) row) := rfl
  constructor
  · obtain ⟨c0, cs, hc0⟩ := List.exists_cons_of_ne_nil happne
    have hc0mem : c0 ∈ applyMask (nanMask (r0 :: rest) tol) r0 := by
      rw [hc0]; exact List.mem_cons_self c0 cs
    have hc0r0 : c0 ∈ r0 := applyMask_mem hc0mem
    have := wf_cell_length wf hr0 hc0r0
    rw [hfilt]
    show ((applyMask (nanMask (r0 :: rest) tol) r0).headD []).length = _
    rw [hc0]
    exact this
  · rw [hfilt]
    show 1 ≤ (applyMask (nanMask (r0 :: rest) tol) r0).length
    have := List.length_pos.mpr happne
    omega

lemma swapaxes20_dims (d' : Tensor) (hS : 1 ≤ nSubjOf d') :
    nVoxOf (swapaxes20 d') = nVoxOf d' ∧ (swapaxes20 d').length = nSubjOf d' := by
  constructor
  · show ((swapaxes20 d').headD []).length = nVoxOf d'
    unfold swapaxes20
    rw [headD_map_range _ _ _ hS]
    simp
  · unfold swapaxes20
    simp

lemma pairwise_corr_length (E : ExtCaps) (swapped : Tensor) (v : Nat) :
    (pairwise_corr E swapped v).length
      = swapped.length * (swapped.length - 1) / 2 := by
  unfold pairwise_corr
  rw [squareformVec_length]
  simp [corrcoef]

lemma columnStack_length (vecs : List (List Val)) :
    (columnStack vecs).length = (vecs.headD []).length := by
  simp [columnStack]

theorem isc_shape_three_plus (E : ExtCaps) (data : Tensor) (tol : Bool)
    (nj : Option Int) (T V S : Nat)
    (hc : checkTimeseriesInput data = some (T, V, S)) (hS : 3 ≤ S) :
    (isc E data false none tol nj).map IscOut.matrixShape = .ok (some (S, V))
    ∧ ((nanMask data tol).any id = true →
        (isc E data true none tol nj).map IscOut.matrixShape
          = .ok (some (S * (S - 1) / 2, V))) := by
  obtain ⟨wf, hT, hV, hSn⟩ := checkTimeseriesInput_some hc
  have h2 : S ≠ 2 := by omega
  constructor
  · rw [isc_loo_reduce E data tol nj hc h2]
    simp only
    set iscs := ((List.range S).map (fun s =>
        loo_corr E (if tol then nanmean else npMean) (thresholdFilter data tol) s)).map
      (fun row => scatterRow (nanMask data tol) row) with hiscs
    have hlen : iscs.length = S := by
      rw [hiscs]; simp
    rw [if_neg (by omega)]
    simp only [Except.map, IscOut.matrixShape]
    congr 1
    rw [Option.some_inj, Prod.mk.injEq]
    refine ⟨hlen, ?_⟩
    apply headD_length
    · intro h
      rw [h] at hlen
      simp at hlen
      omega
    · intro x hx
      rw [hiscs] at hx
      obtain ⟨row, _, hrow⟩ := List.mem_map.mp hx
      rw [← hrow, scatterRow_length, nanMask_length, hV]
  · intro hany
    obtain ⟨hSub, hV1'⟩ := thresholdFilter_dims data tol wf hany
    have hS' : nSubjOf (thresholdFilter data tol) = S := by omega
    have hsw := swapaxes20_dims (thresholdFilter data tol) (by omega)
    have hswV : nVoxOf (swapaxes20 (thresholdFilter data tol))
        = nVoxOf (thresholdFilter data tol) := hsw.1
    have hswL : (swapaxes20 (thresholdFilter data tol)).length = S := by
      rw [hsw.2, hS']
    rw [isc_pairwise_reduce E data tol nj hc h2]
    simp only
    set vox := (List.range (nVoxOf (swapaxes20 (thresholdFilter data tol)))).map
      (fun v => pairwise_corr E (swapaxes20 (thresholdFilter data tol)) v) with hvox
    have hvoxne : vox ≠ [] := by
      rw [hvox]
      intro h
      rw [List.map_eq_nil_iff, List.range_eq_nil] at h
      omega
    have hemp : vox.isEmpty = false := by
      cases hv : vox with
      | nil => exact absurd hv hvoxne
      | cons a as => simp [hv]
    rw [hemp]
    simp only [Bool.false_eq_true, if_false]
    have hP : (vox.headD []).length = S * (S - 1) / 2 := by
      rw [hvox, headD_map_range _ _ _ (by omega), pairwise_corr_length, hswL]
    have hP3 : 3 ≤ S * (S - 1) / 2 := by
      have h6 : 6 ≤ S * (S - 1) := by
        have := Nat.mul_le_mul hS (by omega : 2 ≤ S - 1)
        omega
      omega
    set iscs := (columnStack vox).map (fun row => scatterRow (nanMask data tol) row)
      with hiscs
    have hlen : iscs.length = S * (S - 1) / 2 := by
      rw [hiscs, List.length_map, columnStack_length, hP]
    rw [if_neg (by omega)]
    simp only [Except.map, IscOut.matrixShape]
    congr 1
    rw [Option.some_inj, Prod.mk.injEq]
    refine ⟨hlen, ?_⟩
    apply headD_length
    · intro h
      rw [h] at hlen
      simp at hlen
      omega
    · intro x hx
      rw [hiscs] at hx
      obtain ⟨row, _, hrow⟩ := List.mem_map.mp hx
      rw [← hrow, scatterRow_length, nanMask_length, hV]

/-- C1 amended witness: the concrete 3-subject, 2-region tensor. -/
theorem isc_shape_three_plus_witness :
    (isc extStub threeSubjData false none true none).map IscOut.matrixShape
      = .ok (some (3, 2))
    ∧ (isc extStub threeSubjData true none true none).map IscOut.matrixShape
      = .ok (some (3 * (3 - 1) / 2, 2)) := by
  have h := isc_shape_three_plus extStub threeSubjData true none 2 2 3
    (by decide) (by omega)
  exact ⟨h.1, h.2 (by decide)⟩
